import Mathlib

/-!
Verification of the hammersbald storage-engine core against its specification.

The repository mixes two lineages of the same engine.  The older one (types
`Offset`, `BCSError`) provides `pagedb.rs`, `datafile.rs` and `memtable.rs`;
the newer one (`PRef`, `HammersbaldError`) provides `api.rs`, `pagedfile.rs`,
`asyncfile.rs`, `singlefile.rs` and `persistent.rs`.  Both are embedded below.
Support files absent from the sources (`page.rs`, `types.rs`, `pref.rs`,
`error.rs`, `logfile.rs`, `keyfile.rs`, the newer `memtable.rs`) are modelled
from the specification where a claim needs them; each such definition carries
a doc comment saying so.

Machine integers are modelled as `Nat` with explicit `% 2 ^ w` where overflow
matters.  A byte buffer is modelled as a base-256 number together with its
length: byte `i` of buffer `b` is `b / 256 ^ i % 256`, so byte 0 is the least
significant byte, and `copy_from_slice` becomes an arithmetic splice.
Imperative loops are modelled by fuel-bounded structural recursion where the
fuel counts the loop's remaining iterations; it is chosen so that it is not
exhausted before the loop's own exit condition fires on states the code can
reach, and running out of fuel corresponds to the loop spinning without
progress (which on such states the Rust code would also do, or panic on an
arithmetic underflow in a debug build).
-/

namespace Hammersbald

/-- `PAGE_SIZE` from `page.rs` (spec §6: page size 4096 bytes). -/
def PAGE_SIZE : Nat := 4096

/-- `PAGE_PAYLOAD_SIZE` (newer lineage) = `PAYLOAD_MAX` (older lineage):
page payload bytes, `PAGE_SIZE - 6` (spec §6). -/
def PAGE_PAYLOAD_SIZE : Nat := PAGE_SIZE - 6

/-- Older lineage name for the payload limit. -/
def PAYLOAD_MAX : Nat := PAGE_PAYLOAD_SIZE

/-! ## Byte buffers as base-256 numbers -/

/-- Binary powering for `256 ^ n` by structural recursion on a fuel that is
never exhausted (`n < 2 ^ n`), so that both the elaborator and the kernel
evaluate powers of large buffers efficiently. -/
def pow256Go : Nat → Nat → Nat
  | 0, _ => 1
  | f + 1, n =>
    if n = 0 then 1
    else
      let h := pow256Go f (n / 2)
      if n % 2 = 0 then h * h else h * h * 256

/-- `256 ^ n`, computed by binary powering. -/
def pow256 (n : Nat) : Nat := pow256Go n n

/-- Byte `i` of buffer `b`. -/
def byteAt (b i : Nat) : Nat := b / pow256 i % 256

/-- The `n` bytes of buffer `b` starting at byte `pos`. -/
def extractBytes (b pos n : Nat) : Nat := b / pow256 pos % pow256 n

/-- Overwrite `n` bytes of `dst` at byte `pos` with `src`
(models `copy_from_slice` into a fixed-size buffer). -/
def spliceBytes (dst pos src n : Nat) : Nat :=
  dst % pow256 pos + src % pow256 n * pow256 pos
    + dst / pow256 (pos + n) * pow256 (pos + n)

/-- A byte string: its length and its base-256 value (`val < 256 ^ len`
for every value built by the operations below). -/
structure Bytes where
  len : Nat
  val : Nat
deriving DecidableEq

/-- The empty byte string. -/
def Bytes.nil : Bytes := ⟨0, 0⟩

/-- Concatenation of byte strings. -/
def Bytes.append (a b : Bytes) : Bytes :=
  ⟨a.len + b.len, a.val % pow256 a.len + b.val % pow256 b.len * pow256 a.len⟩

/-- The first `n` bytes. -/
def Bytes.take (a : Bytes) (n : Nat) : Bytes :=
  ⟨min n a.len, a.val % pow256 (min n a.len)⟩

/-- The byte string without its first `n` bytes. -/
def Bytes.drop (a : Bytes) (n : Nat) : Bytes :=
  ⟨a.len - n, a.val / pow256 n % pow256 (a.len - n)⟩

/-- Prepend one byte. -/
def Bytes.cons (b : Nat) (a : Bytes) : Bytes :=
  ⟨a.len + 1, b % 256 + a.val % pow256 a.len * 256⟩

/-- Byte string of a short explicit byte list (first element = byte 0). -/
def Bytes.ofList : List Nat → Bytes
  | [] => Bytes.nil
  | b :: bs => Bytes.cons b (Bytes.ofList bs)

/-- `n` copies of the byte `b` (for `b < 256`). -/
def Bytes.replicate (n b : Nat) : Bytes :=
  ⟨n, (pow256 n - 1) / 255 * (b % 256)⟩

/-- Modelled from the spec (`types.rs`/`pref.rs` are absent): 48-bit
big-endian serialization of a position (spec §6: PRef is 6 bytes big-endian,
`Offset::serialize`). -/
def serialize48 (v : Nat) : Bytes :=
  Bytes.ofList [v / 2 ^ 40 % 256, v / 2 ^ 32 % 256, v / 2 ^ 24 % 256,
                v / 2 ^ 16 % 256, v / 2 ^ 8 % 256, v % 256]

/-- Modelled from the spec (`types.rs` is absent): 24-bit big-endian
serialization (`U24::serialize`, 3 bytes). -/
def serialize24 (v : Nat) : Bytes :=
  Bytes.ofList [v / 2 ^ 16 % 256, v / 2 ^ 8 % 256, v % 256]

/-- Big-endian decoding of a byte string (`Offset::from_slice`,
`U24::from_slice`): auxiliary fold over byte positions. -/
def fromSliceGo (v : Nat) : Nat → Nat → Nat → Nat
  | 0, _, acc => acc
  | n + 1, i, acc => fromSliceGo v n (i + 1) (acc * 256 + byteAt v i)

/-- Big-endian decoding of a byte string. -/
def fromSliceBE (b : Bytes) : Nat :=
  fromSliceGo b.val b.len 0 0

/-- `Offset::in_page_pos` / `PRef::in_page_pos`: byte position inside a page. -/
def in_page_pos (o : Nat) : Nat := o % PAGE_SIZE

/-- `Offset::page_number` / `PRef::page_number`. -/
def page_number (o : Nat) : Nat := o / PAGE_SIZE

/-- `Offset::next_page`: start of the page after the one holding `o`. -/
def next_page (o : Nat) : Nat := (o / PAGE_SIZE + 1) * PAGE_SIZE

/-- `PRef::this_page`: start of the page holding `o`. -/
def this_page (o : Nat) : Nat := o / PAGE_SIZE * PAGE_SIZE

/-- `PRef::invalid`: the 48-bit sentinel. -/
def invalidPRef : Nat := 2 ^ 48 - 1

/-! ## Older lineage: pages, the data file and its iterator (`datafile.rs`) -/

/-- Modelled from the spec (`page.rs` is absent): a page of the older
lineage, a `PAGE_SIZE`-byte buffer carrying the offset it was created for.
`Page::read`/`Page::write` access the buffer at in-page positions. -/
structure OPage where
  offset : Nat
  payload : Nat
deriving DecidableEq

/-- `Page::new(offset)`: zero-filled page. -/
def OPage.new (offset : Nat) : OPage := ⟨offset, 0⟩

/-- `Page::write(pos, slice)`. -/
def OPage.write (p : OPage) (pos : Nat) (src : Bytes) : OPage :=
  { p with payload := spliceBytes p.payload pos src.val src.len }

/-- `Page::read(pos, buf)` for a buffer of `n` bytes. -/
def OPage.readSlice (p : OPage) (pos n : Nat) : Bytes :=
  ⟨n, extractBytes p.payload pos n⟩

/-- `DataType` from `datafile.rs`. -/
inductive DataType where
  | Padding
  | TransactionOrAppData
  | HeaderOrBlock
  | TableSpillOver
deriving DecidableEq

/-- `DataType::from` (any byte other than 1, 2, 3 is `Padding`). -/
def DataType.ofByte (b : Nat) : DataType :=
  if b = 1 then .TransactionOrAppData
  else if b = 2 then .HeaderOrBlock
  else if b = 3 then .TableSpillOver
  else .Padding

/-- `DataType::to_u8`. -/
def DataType.to_u8 : DataType → Nat
  | .Padding => 0
  | .TransactionOrAppData => 1
  | .HeaderOrBlock => 2
  | .TableSpillOver => 3

/-- `DataEntry` from `datafile.rs`. -/
structure DataEntry where
  data_type : DataType
  content : Bytes
deriving DecidableEq

/-- The `DataFile` state from `datafile.rs`: the pages already handed to the
backing async file (in append order), the current in-memory page, and
`append_pos`.  The older `asyncfile.rs` is absent; its append-only backing
is modelled from the spec as the ordered list `flushed`, whose length times
`PAGE_SIZE` is the backing file's length. -/
structure DataFile where
  flushed : List OPage
  page : OPage
  append_pos : Nat
deriving DecidableEq

/-- `DataFile::new`: fresh data file. -/
def DataFile.new : DataFile := ⟨[], OPage.new 0, 0⟩

/-- `DataFile::len` (the backing file's length). -/
def DataFile.len (df : DataFile) : Nat :=
  df.flushed.length * PAGE_SIZE

/-- The `while wrote < slice.len()` loop of `DataFile::append_slice`,
with the fuel counting loop rounds.  The local `pos` mirrors the loop's
local variable initialised from `append_pos.in_page_pos()`; `append_pos`
itself is only moved to the next page start when a page fills. -/
def DataFile.appendSliceGo (df : DataFile) (pos : Nat) (rest : Bytes) :
    Nat → DataFile
  | 0 => df
  | fuel + 1 =>
    if rest.len = 0 then df
    else if pos = PAYLOAD_MAX then
      -- append_page(page.clone()); append_pos = next_page; page = Page::new
      let df' : DataFile :=
        { flushed := df.flushed ++ [df.page],
          page := OPage.new (next_page df.append_pos),
          append_pos := next_page df.append_pos }
      DataFile.appendSliceGo df' 0 rest fuel
    else
      let hv := min rest.len (PAYLOAD_MAX - pos)
      let df' := { df with page := df.page.write pos (rest.take hv) }
      DataFile.appendSliceGo df' (pos + hv) (rest.drop hv) fuel

/-- `DataFile::append_slice`.  After the loop the code sets
`append_pos = Offset::new(append_pos + wrote)` with `wrote` the whole slice
length, even when the loop moved `append_pos` to a later page start. -/
def DataFile.append_slice (df : DataFile) (slice : Bytes) : DataFile :=
  let df' := DataFile.appendSliceGo df (in_page_pos df.append_pos) slice
              (slice.len + 1)
  { df' with append_pos := df'.append_pos + slice.len }

/-- `DataFile::append`.  Returns `none` for the `U24::new` error when the
content length reaches `2 ^ 24`; otherwise the new state and the returned
start offset. -/
def DataFile.append (df : DataFile) (e : DataEntry) :
    Option (DataFile × Nat) :=
  let df :=
    if df.page.offset = 0 ∧ df.append_pos = 0 then
      let df1 : DataFile := { df with append_pos := df.len,
                                      page := OPage.new df.len }
      if df1.append_pos = 0 then df1.append_slice (Bytes.ofList [0xBC, 0xDA])
      else df1
    else df
  let start := df.append_pos
  if e.content.len < 2 ^ 24 then
    let df := df.append_slice (Bytes.ofList [e.data_type.to_u8])
    let df := df.append_slice (serialize24 e.content.len)
    let df := df.append_slice e.content
    some (df, start)
  else none

/-- `DBFile::flush` for `DataFile`: hand the partially filled page to the
backing file when `append_pos` is not page-aligned. -/
def DataFile.flush (df : DataFile) : DataFile :=
  if 0 < in_page_pos df.append_pos then
    { df with flushed := df.flushed ++ [df.page] }
  else df

/-- `DataFile::truncate` delegates to the backing file; the in-memory page
and `append_pos` are untouched. -/
def DataFile.truncate (df : DataFile) (new_len : Nat) : DataFile :=
  { df with flushed := df.flushed.take (new_len / PAGE_SIZE) }

/-- `PageFile::read_page` for a `DataFile`: the backing file holds the
flushed pages in append order. -/
def DataFile.read_page (df : DataFile) (offset : Nat) : Option OPage :=
  df.flushed.get? (offset / PAGE_SIZE)

/-- `PageIterator` (`pagedb.rs`): read pages at consecutive page numbers
while `pagenumber < (1 << 47) / PAGE_SIZE` and `read_page` succeeds, with
the fuel counting the remaining iterations.  An erroring read ends the
iteration. -/
def oldPageYieldsAux (read : Nat → Option OPage) : Nat → Nat → List OPage
  | 0, _ => []
  | fuel + 1, pn =>
    if pn < 2 ^ 47 / PAGE_SIZE then
      match read (pn * PAGE_SIZE) with
      | some pg => pg :: oldPageYieldsAux read fuel (pn + 1)
      | none => []
    else []

/-- All pages yielded by a `PageIterator` started at page number `pn`. -/
def oldPageYields (read : Nat → Option OPage) (pn : Nat) : List OPage :=
  oldPageYieldsAux read (2 ^ 47 / PAGE_SIZE + 1 - pn) pn

/-! ### The data iterator (`DataIterator` in `datafile.rs`) -/

/-- The `DataIterator` state: pages still to be pulled from the page
iterator, the current page, and the in-page read position. -/
structure DataIter where
  rest : List OPage
  current : Option OPage
  pos : Nat
deriving DecidableEq

/-- `DataFile::data_iter`: iterator over the flushed pages. -/
def DataFile.data_iter (df : DataFile) : DataIter :=
  ⟨oldPageYields df.read_page 0, none, 0⟩

/-- The in-page scan of `DataIterator::skip_padding`: `while pos <
PAYLOAD_MAX`, decode the byte at `pos`, advance, and stop at the first
non-`Padding` type.  The fuel equals the remaining iterations
`PAYLOAD_MAX - pos`, so it runs out exactly when the loop condition fails. -/
def scanGo (payload : Nat) : Nat → Nat → Option (DataType × Nat)
  | _, 0 => none
  | pos, fuel + 1 =>
    let t := DataType.ofByte (byteAt payload pos)
    if t = DataType.Padding then scanGo payload (pos + 1) fuel
    else some (t, pos + 1)

/-- One page worth of `DataIterator::skip_padding`. -/
def scanPage (payload pos : Nat) : Option (DataType × Nat) :=
  scanGo payload pos (PAYLOAD_MAX - pos)

/-- `DataIterator::skip_padding`, with the fuel counting page hops. -/
def DataIter.skipPaddingAux (s : DataIter) : Nat → Option (DataType × DataIter)
  | 0 => none
  | fuel + 1 =>
    match s.current with
    | none => none
    | some c =>
      match scanPage c.payload s.pos with
      | some (t, pos') => some (t, { s with pos := pos' })
      | none => DataIter.skipPaddingAux ⟨s.rest.tail, s.rest.head?, 0⟩ fuel

/-- `DataIterator::skip_padding`. -/
def DataIter.skip_padding (s : DataIter) : Option (DataType × DataIter) :=
  s.skipPaddingAux (s.rest.length + 1)

/-- `DataIterator::read_slice` for a buffer of `n` bytes, with the fuel
counting page hops; returns the bytes read and the advanced state, or
`none` when the pages run out first. -/
def DataIter.readSliceAux (s : DataIter) (acc : Bytes) (n : Nat) :
    Nat → Option (Bytes × DataIter)
  | 0 => none
  | fuel + 1 =>
    match s.current with
    | none => none
    | some c =>
      let hv := min (PAYLOAD_MAX - s.pos) (n - acc.len)
      let acc' := acc.append (c.readSlice s.pos hv)
      let s' := { s with pos := s.pos + hv }
      if acc'.len = n then some (acc', s')
      else DataIter.readSliceAux ⟨s'.rest.tail, s'.rest.head?, 0⟩ acc' n fuel

/-- `DataIterator::read_slice`. -/
def DataIter.read_slice (s : DataIter) (n : Nat) :
    Option (Bytes × DataIter) :=
  s.readSliceAux Bytes.nil n (s.rest.length + 1)

/-- `DataIterator::next`: fetch the first page (skipping the 2 magic bytes)
on the first call, then skip padding, read the 3-byte length and the
content. -/
def DataIter.next (s : DataIter) : Option (DataEntry × DataIter) :=
  let s : DataIter :=
    if s.current = none then ⟨s.rest.tail, s.rest.head?, 2⟩ else s
  match s.current with
  | none => none
  | some _ =>
    match s.skip_padding with
    | none => none
    | some (t, s) =>
      match s.read_slice 3 with
      | none => none
      | some (size, s) =>
        match s.read_slice (fromSliceBE size) with
        | none => none
        | some (buf, s) => some (⟨t, buf⟩, s)

/-! ## Older lineage: the three-file page layer (`pagedb.rs`) -/

/-- Modelled from the spec (`keyfile.rs` is absent): the table file as a
dense array of pages, page `i` covering byte offset `i * PAGE_SIZE`;
`write_page` updates in place, `truncate` drops pages past the new length. -/
structure TableFile where
  pages : List OPage
deriving DecidableEq

/-- Table file length. -/
def TableFile.len (t : TableFile) : Nat := t.pages.length * PAGE_SIZE

/-- `KeyFile::truncate`. -/
def TableFile.truncate (t : TableFile) (new_len : Nat) : TableFile :=
  ⟨t.pages.take (new_len / PAGE_SIZE)⟩

/-- `KeyFile::write_page`: in-place update of the page at the page's offset. -/
def TableFile.write_page (t : TableFile) (p : OPage) : TableFile :=
  ⟨t.pages.set (p.offset / PAGE_SIZE) p⟩

/-- Modelled from the spec (`logfile.rs` is absent): the log file holds its
pages in append order; `read_page` of page number `pn` yields page `pn` of
the list and errors past the end, which stops a `PageIterator`. -/
def logRead (pages : List OPage) (offset : Nat) : Option OPage :=
  pages.get? (offset / PAGE_SIZE)

/-- `PageDB` (`pagedb.rs`): the table, data and log files. -/
structure PageDB where
  table : TableFile
  data : DataFile
  log : List OPage
deriving DecidableEq

/-- The log-file header page written by `PageDB::batch`: magic `BC 00` at
offset 0, the data length at offset 2 and the table length at offset 8,
each as a 6-byte big-endian number. -/
def mkLogHeader (data_len table_len : Nat) : OPage :=
  (((OPage.new 0).write 0 (Bytes.ofList [0xBC, 0x00])).write 2
      (serialize48 data_len)).write 8 (serialize48 table_len)

/-- `PageDB::recover` (`pagedb.rs` lines 97-124): when the log is non-empty,
read the header page, truncate the data file and the table file to the
lengths it stores, write every further log page whose offset is below the
recovered table length back into the table file, and truncate the log;
otherwise do nothing. -/
def PageDB.recover (s : PageDB) : PageDB :=
  if 0 < s.log.length * PAGE_SIZE then
    let pages := oldPageYields (logRead s.log) 0
    let s1 :=
      match pages with
      | [] => s
      | first :: rest =>
        let data_len := fromSliceBE (first.readSlice 2 6)
        let table_len := fromSliceBE (first.readSlice 8 6)
        let d := s.data.truncate data_len
        let t := s.table.truncate table_len
        let t := rest.foldl
          (fun (t : TableFile) (p : OPage) =>
            if p.offset < table_len then t.write_page p else t) t
        { s with data := d, table := t }
    { s1 with log := [] }
  else s

/-- `PageDB::batch` (`pagedb.rs` lines 126-152): flush and sync the data and
table files, truncate the log, then append a fresh header page with the
current data and table lengths and sync it.  The table file's flush and sync
are modelled from the spec as the identity on its backing pages (`keyfile.rs`
is absent). -/
def PageDB.batch (s : PageDB) : PageDB :=
  let d := s.data.flush
  let t := s.table
  let data_len := d.len
  let table_len := t.len
  { data := d, table := t, log := [mkLogHeader data_len table_len] }

/-! ## Newer lineage: pages and the paged-file appender (`pagedfile.rs`) -/

/-- Modelled from the spec (`page.rs` is absent): a page of the newer
lineage, a `PAGE_SIZE`-byte buffer together with the `PRef` it was created
for. -/
structure NPage where
  pref : Nat
  payload : Nat
deriving DecidableEq

/-- `Page::new(pref)`: zero-filled page. -/
def NPage.new (pref : Nat) : NPage := ⟨pref, 0⟩

/-- `Page::write(pos, slice)`. -/
def NPage.write (p : NPage) (pos : Nat) (src : Bytes) : NPage :=
  { p with payload := spliceBytes p.payload pos src.val src.len }

/-- `Page::write_pref(pos, pref)`: 6-byte big-endian position. -/
def NPage.write_pref (p : NPage) (pos v : Nat) : NPage :=
  p.write pos (serialize48 v)

/-- `Page::from_buf`: a page built from a raw buffer (the position is not
part of the on-disk buffer). -/
def NPage.from_buf (b : Nat) : NPage := ⟨0, b⟩

/-- Modelled from the spec: an append-only backing `PagedFile` as the list
of its pages in append order; `read_page` addresses page `pref / PAGE_SIZE`
and yields `None` past the end. -/
def pagesRead (file : List NPage) (pref : Nat) : Option NPage :=
  file.get? (pref / PAGE_SIZE)

/-- `PagedFileAppender` (`pagedfile.rs`): the backing paged file, the append
position, the current in-progress page and `lep` (last end page). -/
structure PagedFileAppender where
  file : List NPage
  pos : Nat
  page : Option NPage
  lep : Nat
deriving DecidableEq

/-- The body of the `while wrote < buf.len()` loop of
`PagedFileAppender::append` for the in-progress page `pg`: copy a chunk
of the buffer into the payload at `pos.in_page_pos()`; when the payload
fills, write the trailing `lep` pointer, hand the page to the backing file
and jump `pos` over the trailer; drop the page when `pos` reaches a page
start.  Returns the new state and the remaining buffer. -/
def PagedFileAppender.appendStep (ap : PagedFileAppender) (pg : NPage)
    (rest : Bytes) : PagedFileAppender × Bytes :=
  let space := min (PAGE_PAYLOAD_SIZE - in_page_pos ap.pos) rest.len
  let pg2 := pg.write (in_page_pos ap.pos) (rest.take space)
  let ap2 := { ap with page := some pg2, pos := ap.pos + space }
  let ap3 :=
    if in_page_pos ap2.pos = PAGE_PAYLOAD_SIZE then
      { ap2 with page := some (pg2.write_pref PAGE_PAYLOAD_SIZE ap2.lep),
                 file := ap2.file ++ [pg2.write_pref PAGE_PAYLOAD_SIZE ap2.lep],
                 pos := ap2.pos + (PAGE_SIZE - PAGE_PAYLOAD_SIZE) }
    else ap2
  let ap4 := if in_page_pos ap3.pos = 0 then { ap3 with page := none } else ap3
  (ap4, rest.drop space)

/-- The `while wrote < buf.len()` loop of `PagedFileAppender::append`, with
the fuel counting loop rounds: start a page if none is in progress, then run
the loop body.  The `none` fallback of the inner match is unreachable: the
page was just created. -/
def PagedFileAppender.appendGo (ap : PagedFileAppender) (rest : Bytes) :
    Nat → PagedFileAppender
  | 0 => ap
  | fuel + 1 =>
    if rest.len = 0 then ap
    else
      let ap1 := if ap.page = none
                 then { ap with page := some (NPage.new ap.lep) } else ap
      match ap1.page with
      | none => ap1
      | some pg =>
        let r := PagedFileAppender.appendStep ap1 pg rest
        PagedFileAppender.appendGo r.1 r.2 fuel

/-- `PagedFileAppender::append`: run the loop and return `Ok(self.pos)`. -/
def PagedFileAppender.append (ap : PagedFileAppender) (buf : Bytes) :
    PagedFileAppender × Nat :=
  let ap := PagedFileAppender.appendGo ap buf (buf.len + 1)
  (ap, ap.pos)

/-- `PagedFileAppender::read_page` (`pagedfile.rs` lines 127-134): when the
requested position is the page of the current append position and a page is
in progress, return the in-memory page; otherwise read the backing file. -/
def PagedFileAppender.read_page (ap : PagedFileAppender) (pref : Nat) :
    Option NPage :=
  match ap.page with
  | some pg => if this_page ap.pos = pref then some pg else pagesRead ap.file pref
  | none => pagesRead ap.file pref

/-! ## Newer lineage: the async writer (`asyncfile.rs`) -/

/-- `AsyncFile` (`asyncfile.rs`): the queue of pending pages and the inner
paged file (modelled as its pages in append order). -/
structure AsyncFile where
  queue : List NPage
  file : List NPage
deriving DecidableEq

/-- `AsyncFile::read_page` (`asyncfile.rs` lines 76-78): lock the inner file
and read it; the queue is not consulted. -/
def AsyncFile.read_page (a : AsyncFile) (pref : Nat) : Option NPage :=
  pagesRead a.file pref

/-- `AsyncFile::append_page`: enqueue the page. -/
def AsyncFile.append_page (a : AsyncFile) (pg : NPage) : AsyncFile :=
  { a with queue := a.queue ++ [pg] }

/-- The background worker draining the queue into the inner file
(`AsyncFile::background`), observed after `flush` has waited for it. -/
def AsyncFile.flush (a : AsyncFile) : AsyncFile :=
  ⟨[], a.file ++ a.queue⟩

/-! ## Newer lineage: a single file (`singlefile.rs`) -/

/-- `HammersbaldError` (`error.rs` is absent): the variants used by the
embedded sources plus `OutOfBounds`, modelled from the spec's error
taxonomy (§7). -/
inductive HammersbaldError where
  | Corrupted (msg : String)
  | BadMagic
  | ForwardReference
  | OutOfBounds
deriving DecidableEq

/-- `SingleFile` (`singlefile.rs`): the OS file's contents and seek cursor,
the chunk base, the tracked length and the chunk size. -/
structure SingleFile where
  bytes : Bytes
  cursor : Nat
  base : Nat
  len : Nat
  chunk_size : Nat
deriving DecidableEq

/-- `SingleFile::read_page` (`singlefile.rs` lines 52-67): error outside the
chunk's address range, `None` at or past the tracked length, otherwise seek
and read up to `PAGE_SIZE` bytes into a zeroed buffer. -/
def SingleFile.read_page (s : SingleFile) (pref : Nat) :
    Except HammersbaldError (Option NPage × SingleFile) :=
  if pref < s.base ∨ s.base + s.chunk_size ≤ pref then
    .error (.Corrupted "read from wrong file")
  else
    let pos := pref - s.base
    if s.len ≤ pos then .ok (none, s)
    else
      let k := min PAGE_SIZE (s.bytes.len - pos)
      let buffer := extractBytes s.bytes.val pos k
      .ok (some (NPage.from_buf buffer), { s with cursor := pos + k })

/-- `SingleFile::append_page` (`singlefile.rs` lines 84-89): write the
page's buffer at the OS cursor and add `PAGE_SIZE` to the tracked length. -/
def SingleFile.append_page (s : SingleFile) (pg : NPage) : SingleFile :=
  { s with
      bytes := ⟨max s.bytes.len (s.cursor + PAGE_SIZE),
                spliceBytes s.bytes.val s.cursor pg.payload PAGE_SIZE⟩,
      cursor := s.cursor + PAGE_SIZE,
      len := s.len + PAGE_SIZE }

/-! ## Newer lineage: the page iterator (`pagedfile.rs` lines 200-213) -/

/-- The yields of a `PagedFileIterator` over an arbitrary `read_page`
implementation, with the fuel counting loop rounds: while the page number
is at most `(1 << 35) / PAGE_SIZE` and `read_page` returns `Ok(Some(_))`,
yield the page and advance to the next page number; any other read result
ends the iteration. -/
def PagedFileIterator.yieldsAux
    (read : Nat → Except HammersbaldError (Option NPage)) :
    Nat → Nat → List NPage
  | 0, _ => []
  | fuel + 1, pn =>
    if pn ≤ 2 ^ 35 / PAGE_SIZE then
      match read (pn * PAGE_SIZE) with
      | .ok (some pg) => pg :: PagedFileIterator.yieldsAux read fuel (pn + 1)
      | _ => []
    else []

/-- All pages a `PagedFileIterator` created at position `pref` yields. -/
def PagedFileIterator.yieldsFrom
    (read : Nat → Except HammersbaldError (Option NPage)) (pref : Nat) :
    List NPage :=
  PagedFileIterator.yieldsAux read (2 ^ 35 / PAGE_SIZE + 2 - page_number pref)
    (page_number pref)

/-! ## Older lineage: the in-memory hash index (`memtable.rs`) -/

/-- Modelled from the spec (§9, the external `siphasher` crate): SipHash-2-4
state and rounds over 64-bit words. -/
structure SipState where
  v0 : Nat
  v1 : Nat
  v2 : Nat
  v3 : Nat

/-- Wrapping 64-bit addition. -/
def wadd (a b : Nat) : Nat := (a + b) % 2 ^ 64

/-- 64-bit left rotation. -/
def rotl64 (x b : Nat) : Nat := (x <<< b) % 2 ^ 64 ||| x >>> (64 - b)

/-- One SipHash round. -/
def sipRound (s : SipState) : SipState :=
  let v0 := wadd s.v0 s.v1
  let v1 := rotl64 s.v1 13
  let v1 := v1 ^^^ v0
  let v0 := rotl64 v0 32
  let v2 := wadd s.v2 s.v3
  let v3 := rotl64 s.v3 16
  let v3 := v3 ^^^ v2
  let v0 := wadd v0 v3
  let v3 := rotl64 v3 21
  let v3 := v3 ^^^ v0
  let v2 := wadd v2 v1
  let v1 := rotl64 v1 17
  let v1 := v1 ^^^ v2
  let v2 := rotl64 v2 32
  ⟨v0, v1, v2, v3⟩

/-- Compression of one 64-bit message word (2 rounds). -/
def sipCompress (s : SipState) (m : Nat) : SipState :=
  let s := { s with v3 := s.v3 ^^^ m }
  let s := sipRound (sipRound s)
  { s with v0 := s.v0 ^^^ m }

/-- A little-endian 64-bit word from up to 8 bytes. -/
def leWord (bs : List Nat) : Nat :=
  bs.foldr (fun b acc => acc * 256 + b % 256) 0

/-- Compress all full 8-byte blocks of the message. -/
def sipBlocks (s : SipState) : List Nat → SipState × List Nat
  | b0 :: b1 :: b2 :: b3 :: b4 :: b5 :: b6 :: b7 :: rest =>
    sipBlocks (sipCompress s (leWord [b0, b1, b2, b3, b4, b5, b6, b7])) rest
  | rest => (s, rest)

/-- SipHash-2-4 of a byte string under keys `(k0, k1)`. -/
def sipHash24 (k0 k1 : Nat) (msg : List Nat) : Nat :=
  let s : SipState :=
    ⟨k0 % 2 ^ 64 ^^^ 0x736f6d6570736575, k1 % 2 ^ 64 ^^^ 0x646f72616e646f6d,
     k0 % 2 ^ 64 ^^^ 0x6c7967656e657261, k1 % 2 ^ 64 ^^^ 0x7465646279746573⟩
  let r := sipBlocks s msg
  let mlast := (leWord r.2 + msg.length % 256 * 2 ^ 56) % 2 ^ 64
  let s := sipCompress r.1 mlast
  let s := { s with v2 := s.v2 ^^^ 0xff }
  let s := sipRound (sipRound (sipRound (sipRound s)))
  s.v0 ^^^ s.v1 ^^^ s.v2 ^^^ s.v3

/-- `MemTable` (`memtable.rs`): linear-hash parameters and buckets of
`(hash, offset)` pairs. -/
structure MemTable where
  step : Nat
  log_mod : Nat
  sip0 : Nat
  sip1 : Nat
  buckets : List (Option (List Nat × List Nat))

/-- `MemTable::hash`: SipHash of the key under `(sip0, sip1)`, truncated to
32 bits (`hasher.finish() as u32`). -/
def MemTable.hash (m : MemTable) (key : List Nat) : Nat :=
  sipHash24 m.sip0 m.sip1 key % 2 ^ 32

/-- The bucket selection of `MemTable::get` (`memtable.rs` lines 73-78):
`hash & (!0u32 >> (32 - log_mod))`, and when that is below `step`,
`hash & (!0u32 >> (32 - log_mod - 1))`. -/
def MemTable.bucket_number (m : MemTable) (key : List Nat) : Nat :=
  if m.hash key &&& ((2 ^ 32 - 1) >>> (32 - m.log_mod)) < m.step then
    m.hash key &&& ((2 ^ 32 - 1) >>> (32 - m.log_mod - 1))
  else m.hash key &&& ((2 ^ 32 - 1) >>> (32 - m.log_mod))

/-! ## Newer lineage: the public engine API (`api.rs`) -/

/-- Modelled from the spec (the newer `memtable.rs` is absent): the slice of
the engine state that `Hammersbald::put` drives.  `append_data` appends an
indexed record and returns its position; positions are issued
monotonically.  `put` installs the `(key, position)` pair in the index. -/
structure EngineMem where
  records : List (Bytes × Bytes × List Nat)
  nextPref : Nat
  index : List (Bytes × Nat)
deriving DecidableEq

/-- Modelled from the spec: `MemTable::append_data`. -/
def EngineMem.append_data (m : EngineMem) (key data : Bytes)
    (referred : List Nat) : EngineMem × Nat :=
  ({ m with records := m.records ++ [(key, data, referred)],
            nextPref := m.nextPref + 1 }, m.nextPref)

/-- Modelled from the spec: `MemTable::put`. -/
def EngineMem.putKey (m : EngineMem) (key : Bytes) (pref : Nat) : EngineMem :=
  { m with index := m.index ++ [(key, pref)] }

/-- `Hammersbald::put` (`api.rs` lines 139-155) in a debug build: the length
guard, the data append, the forward-reference guard, and the index insert. -/
def put (m : EngineMem) (key data : Bytes) (referred : List Nat) :
    Except HammersbaldError (EngineMem × Nat) :=
  if 255 < key.len ∨ 2 ^ 23 ≤ data.len then .error .ForwardReference
  else
    let r := m.append_data key data referred
    if referred.any (fun o => r.2 ≤ o) then .error .ForwardReference
    else .ok (r.1.putKey key r.2, r.2)

/-! # Theorems -/

theorem pow256Go_eq (f : Nat) : ∀ n : Nat, n < 2 ^ f → pow256Go f n = 256 ^ n := by
  induction f with
  | zero => intro n h; interval_cases n; rfl
  | succ f ih =>
    intro n h
    rcases Nat.eq_zero_or_pos n with h0 | h0
    · subst h0; simp [pow256Go]
    · have hhalf : n / 2 < 2 ^ f := by
        have : n < 2 ^ f * 2 := by rw [← pow_succ]; exact h
        omega
      have hrec := ih (n / 2) hhalf
      have hsplit : 256 ^ n = 256 ^ (n / 2) * 256 ^ (n / 2) * 256 ^ (n % 2) := by
        conv_lhs => rw [← Nat.div_add_mod n 2]
        rw [pow_add, two_mul, pow_add]
      simp only [pow256Go, if_neg (Nat.pos_iff_ne_zero.mp h0), hrec]
      rcases Nat.mod_two_eq_zero_or_one n with he | he <;> simp [he, hsplit]

theorem pow256_eq (n : Nat) : pow256 n = 256 ^ n :=
  pow256Go_eq n n (Nat.lt_two_pow n)

/-! ## Helper lemmas for the padding scan -/

theorem byteAt_zero_of_extract (payload pos k : Nat)
    (h : extractBytes payload pos (k + 1) = 0) : byteAt payload pos = 0 := by
  unfold extractBytes at h
  unfold byteAt
  simp only [pow256_eq] at h
  simp only [pow256_eq]
  have hdvd : (256 : Nat) ∣ 256 ^ (k + 1) := dvd_pow_self 256 (Nat.succ_ne_zero k)
  calc payload / 256 ^ pos % 256
      = payload / 256 ^ pos % 256 ^ (k + 1) % 256 :=
        (Nat.mod_mod_of_dvd _ hdvd).symm
    _ = 0 := by rw [h]

theorem extract_zero_shift (payload pos k : Nat)
    (h : extractBytes payload pos (k + 1) = 0) :
    extractBytes payload (pos + 1) k = 0 := by
  unfold extractBytes at h ⊢
  simp only [pow256_eq] at h ⊢
  obtain ⟨t, ht⟩ := Nat.dvd_of_mod_eq_zero h
  have h1 : payload / 256 ^ (pos + 1) = payload / 256 ^ pos / 256 := by
    rw [Nat.div_div_eq_div_mul, pow_succ]
  rw [h1, ht, pow_succ, mul_comm (256 ^ k) 256, mul_assoc,
      Nat.mul_div_cancel_left _ (by norm_num : (0:Nat) < 256)]
  exact Nat.mul_mod_right _ _

/-- The padding scan jumps over a run of zero bytes. -/
theorem scanGo_zero_run (payload : Nat) :
    ∀ (k pos fuel : Nat), extractBytes payload pos k = 0 → k ≤ fuel →
      scanGo payload pos fuel = scanGo payload (pos + k) (fuel - k) := by
  intro k
  induction k with
  | zero => intro pos fuel _ _; simp
  | succ k ih =>
    intro pos fuel h hk
    obtain ⟨f, rfl⟩ : ∃ f, fuel = f + 1 := ⟨fuel - 1, by omega⟩
    have hb : byteAt payload pos = 0 := byteAt_zero_of_extract _ _ _ h
    have hstep : scanGo payload pos (f + 1) = scanGo payload (pos + 1) f := by
      simp only [scanGo, hb]
      simp [DataType.ofByte]
    rw [hstep, ih (pos + 1) f (extract_zero_shift _ _ _ h) (by omega)]
    congr 1 <;> omega

/-- A page whose remaining payload bytes are all zero yields no entry type. -/
theorem scanPage_zero_tail (payload pos : Nat)
    (h : extractBytes payload pos (PAYLOAD_MAX - pos) = 0) :
    scanPage payload pos = none := by
  unfold scanPage
  rw [scanGo_zero_run payload (PAYLOAD_MAX - pos) pos (PAYLOAD_MAX - pos) h le_rfl]
  simp [scanGo]

/-! ## Shared byte-splice lemmas -/

theorem pow256_add (a b : Nat) : pow256 (a + b) = pow256 a * pow256 b := by
  simp only [pow256_eq, pow_add]

theorem extract_splice_self (dst pos src n : Nat) :
    extractBytes (spliceBytes dst pos src n) pos n = src % pow256 n := by
  unfold extractBytes spliceBytes
  rw [pow256_add]
  simp only [pow256_eq]
  have hP : 0 < (256 : Nat) ^ pos := Nat.pos_pow_of_pos _ (by norm_num)
  have hQ : 0 < (256 : Nat) ^ n := Nat.pos_pow_of_pos _ (by norm_num)
  have hform : dst % 256 ^ pos + src % 256 ^ n * 256 ^ pos
      + dst / (256 ^ pos * 256 ^ n) * (256 ^ pos * 256 ^ n)
      = dst % 256 ^ pos
        + 256 ^ pos * (src % 256 ^ n + 256 ^ n * (dst / (256 ^ pos * 256 ^ n))) := by
    ring
  rw [hform, Nat.add_mul_div_left _ _ hP,
      Nat.div_eq_of_lt (Nat.mod_lt _ hP), Nat.zero_add,
      Nat.add_mul_mod_self_left]
  exact Nat.mod_mod_of_dvd _ dvd_rfl

theorem splice_keeps_low (dst pos src n : Nat) :
    spliceBytes dst pos src n % pow256 pos = dst % pow256 pos := by
  unfold spliceBytes
  rw [pow256_add]
  simp only [pow256_eq]
  have hform : dst % 256 ^ pos + src % 256 ^ n * 256 ^ pos
      + dst / (256 ^ pos * 256 ^ n) * (256 ^ pos * 256 ^ n)
      = dst % 256 ^ pos
        + (src % 256 ^ n + 256 ^ n * (dst / (256 ^ pos * 256 ^ n))) * 256 ^ pos := by
    ring
  rw [hform, Nat.add_mul_mod_self_right]
  exact Nat.mod_mod_of_dvd _ dvd_rfl

/-! ## C6: round-trip through the data file -/

/-- First appended entry: 5000 bytes of `1`.  Its serialized form crosses
the boundary of page 0 into page 1. -/
def c6entryA : DataEntry := ⟨.TransactionOrAppData, Bytes.replicate 5000 1⟩

/-- Second appended entry: the single byte `9`. -/
def c6entryB : DataEntry := ⟨.TransactionOrAppData, Bytes.ofList [9]⟩

/-- The data file after appending both entries and flushing. -/
def c6df : DataFile :=
  (((DataFile.new.append c6entryA).bind fun r => r.1.append c6entryB).map
    fun r => r.1.flush).getD DataFile.new

/-- The second flushed page of that file. -/
def c6page1 : OPage := c6df.flushed.getD 1 (OPage.new 0)

/-- The iterator state after the first yielded entry. -/
def c6s1 : DataIter := ⟨[], some c6page1, 916⟩

/-- The content the iterator actually returns for the first entry: entry A's
bytes with entry B's envelope `[1, 0, 0, 1, 9]` spliced over positions
4988..4992. -/
def c6corrupt : Bytes :=
  ((Bytes.replicate 4988 1).append (Bytes.ofList [1, 0, 0, 1, 9])).append
    (Bytes.replicate 7 1)

set_option maxRecDepth 20000 in
theorem c6_step1 :
    c6df.data_iter.next = some (⟨.TransactionOrAppData, c6corrupt⟩, c6s1) := by
  decide

set_option maxRecDepth 20000 in
theorem c6_second : c6s1.next = none := by
  have hscan : scanPage c6page1.payload 916 = none :=
    scanPage_zero_tail _ _ (by decide)
  simp only [DataIter.next, c6s1]
  norm_num
  simp only [DataIter.skip_padding, DataIter.skipPaddingAux, hscan]
  rfl

/-- C6: the claimed round-trip fails on the code.  Appending entry A (5000
bytes, straddling a page boundary) and then entry B to a fresh data file and
flushing makes the iterator yield a single entry whose content differs from
A (B's envelope bytes overwrote A's tail, because `append_slice` advances
`append_pos` by the whole slice length after a page crossing), and B is
never yielded. -/
theorem straddling_roundtrip_fails :
    ((DataFile.new.append c6entryA).bind fun r => r.1.append c6entryB).isSome
    ∧ (c6df.data_iter.next).map Prod.fst
        = some ⟨.TransactionOrAppData, c6corrupt⟩
    ∧ ((c6df.data_iter.next).bind fun p => p.2.next) = none
    ∧ c6corrupt ≠ c6entryA.content := by
  refine ⟨by decide, ?_, ?_, by decide⟩
  · rw [c6_step1]; rfl
  · rw [c6_step1]
    simpa using c6_second

/-! ## C1: crash recovery -/

theorem oldPageYieldsAux_list (ps : List OPage) :
    ∀ (fuel pn : Nat), ps.length ≤ 2 ^ 47 / PAGE_SIZE →
      ps.length ≤ pn + fuel →
      oldPageYieldsAux (logRead ps) fuel pn = ps.drop pn := by
  intro fuel
  induction fuel with
  | zero =>
    intro pn hbound hlen
    simp only [oldPageYieldsAux]
    rw [List.drop_eq_nil_of_le (by omega)]
  | succ fuel ih =>
    intro pn hbound hlen
    simp only [oldPageYieldsAux]
    by_cases hpn : pn < 2 ^ 47 / PAGE_SIZE
    · rw [if_pos hpn]
      have hdiv : pn * PAGE_SIZE / PAGE_SIZE = pn :=
        Nat.mul_div_cancel _ (by norm_num [PAGE_SIZE])
      have hread : logRead ps (pn * PAGE_SIZE) = ps.get? pn := by
        unfold logRead; rw [hdiv]
      rw [hread]
      cases hget : ps.get? pn with
      | none =>
        have hge : ps.length ≤ pn := List.get?_eq_none.mp hget
        rw [List.drop_eq_nil_of_le hge]
      | some pg =>
        have hlt : pn < ps.length := by
          by_contra hge
          push_neg at hge
          rw [List.get?_eq_none.mpr hge] at hget
          exact Option.noConfusion hget
        have hpg : ps.get ⟨pn, hlt⟩ = pg := by
          have h2 := List.get?_eq_get hlt
          rw [hget] at h2
          exact (Option.some.injEq _ _ ▸ h2.symm)
        rw [ih (pn + 1) hbound (by omega)]
        rw [List.drop_eq_get_cons hlt, hpg]
    · rw [if_neg hpn]
      rw [List.drop_eq_nil_of_le (by omega)]

theorem oldPageYields_list (ps : List OPage) (h : ps.length ≤ 2 ^ 47 / PAGE_SIZE) :
    oldPageYields (logRead ps) 0 = ps := by
  unfold oldPageYields
  rw [oldPageYieldsAux_list ps _ 0 h (by omega)]
  rfl

theorem foldl_write_filter (tlen : Nat) :
    ∀ (l : List OPage) (t : TableFile),
      l.foldl (fun (t : TableFile) (p : OPage) =>
        if p.offset < tlen then t.write_page p else t) t
      = (l.filter fun p => p.offset < tlen).foldl TableFile.write_page t := by
  intro l
  induction l with
  | nil => intro t; rfl
  | cons p l ih =>
    intro t
    simp only [List.foldl_cons, List.filter_cons]
    by_cases hp : p.offset < tlen
    · rw [if_pos hp, ih]
      simp [hp]
    · rw [if_neg hp, ih]
      simp [hp]

/-- C1: `PageDB::recover` with an empty log changes nothing; with a
non-empty log it truncates the data file to the length at header offset 2,
truncates the table file to the length at header offset 8, writes back
every further log page whose offset is below that table length, and empties
the log. -/
theorem recover_replays_log (s : PageDB) (hlen : s.log.length ≤ 2 ^ 47 / PAGE_SIZE) :
    (s.log = [] → s.recover = s)
    ∧ ∀ first rest, s.log = first :: rest →
        s.recover =
          { data := s.data.truncate (fromSliceBE (first.readSlice 2 6)),
            table := (rest.filter fun p =>
                p.offset < fromSliceBE (first.readSlice 8 6)).foldl
                TableFile.write_page
                (s.table.truncate (fromSliceBE (first.readSlice 8 6))),
            log := [] } := by
  constructor
  · intro hnil
    unfold PageDB.recover
    rw [hnil]
    simp
  · intro first rest hcons
    unfold PageDB.recover
    rw [hcons]
    have hpos : 0 < (first :: rest).length * PAGE_SIZE := by
      simp [PAGE_SIZE]
    rw [if_pos hpos]
    rw [hcons] at hlen
    have hyields : oldPageYields (logRead (first :: rest)) 0 = first :: rest :=
      oldPageYields_list _ hlen
    simp only [hyields]
    rw [foldl_write_filter]

/-- Concrete recovery scenario for the witness: a log holding a header page
(data length 4096, table length 8192) and two pre-image pages, one below
the table length and one above. -/
def c1header : OPage := mkLogHeader PAGE_SIZE (2 * PAGE_SIZE)

def c1pageA : OPage := ⟨PAGE_SIZE, 5⟩

def c1pageB : OPage := ⟨3 * PAGE_SIZE, 6⟩

def c1db : PageDB :=
  { table := ⟨[⟨0, 11⟩, ⟨PAGE_SIZE, 12⟩, ⟨2 * PAGE_SIZE, 13⟩]⟩,
    data := ⟨[⟨0, 21⟩, ⟨PAGE_SIZE, 22⟩], OPage.new (2 * PAGE_SIZE), 2 * PAGE_SIZE + 5⟩,
    log := [c1header, c1pageA, c1pageB] }

set_option maxRecDepth 40000 in
theorem recover_replays_log_witness :
    c1db.log = c1header :: [c1pageA, c1pageB]
    ∧ c1db.recover =
        { data := c1db.data.truncate (fromSliceBE (c1header.readSlice 2 6)),
          table := ([c1pageA, c1pageB].filter fun p =>
              p.offset < fromSliceBE (c1header.readSlice 8 6)).foldl
              TableFile.write_page
              (c1db.table.truncate (fromSliceBE (c1header.readSlice 8 6))),
          log := [] }
    ∧ c1db.recover =
        { table := ⟨[⟨0, 11⟩, c1pageA]⟩,
          data := ⟨[⟨0, 21⟩], OPage.new (2 * PAGE_SIZE), 2 * PAGE_SIZE + 5⟩,
          log := [] } := by
  refine ⟨rfl, (recover_replays_log c1db (by decide)).2 c1header [c1pageA, c1pageB] rfl, ?_⟩
  decide

/-! ## C2: the log after `batch` -/

/-- C2 (amended): after `PageDB::batch` the log holds exactly one page, the
fresh header recording the flushed data length and the table length; its
length is `PAGE_SIZE`, not zero. -/
theorem batch_log_single_header (s : PageDB) :
    (s.batch).log = [mkLogHeader (s.data.flush).len s.table.len]
    ∧ (s.batch).log.length * PAGE_SIZE = PAGE_SIZE := by
  refine ⟨rfl, ?_⟩
  have h : (s.batch).log.length = 1 := rfl
  rw [h, one_mul]

/-- C2 counterexample: on a fresh `PageDB`, `batch` leaves a log of length
`PAGE_SIZE`, not an empty log as claimed. -/
theorem batch_log_nonempty_counterexample :
    (PageDB.batch ⟨⟨[]⟩, DataFile.new, []⟩).log ≠ []
    ∧ (PageDB.batch ⟨⟨[]⟩, DataFile.new, []⟩).log.length * PAGE_SIZE = 4096 := by
  decide

/-! ## C3 -/

theorem appendStep_fst_pos (ap : PagedFileAppender) (pg : NPage) (rest : Bytes) :
    (ap.appendStep pg rest).1.pos =
      (if in_page_pos (ap.pos + min (PAGE_PAYLOAD_SIZE - in_page_pos ap.pos) rest.len)
          = PAGE_PAYLOAD_SIZE
       then ap.pos + min (PAGE_PAYLOAD_SIZE - in_page_pos ap.pos) rest.len
              + (PAGE_SIZE - PAGE_PAYLOAD_SIZE)
       else ap.pos + min (PAGE_PAYLOAD_SIZE - in_page_pos ap.pos) rest.len) := by
  simp only [PagedFileAppender.appendStep]
  split_ifs <;> rfl

theorem appendStep_snd_len (ap : PagedFileAppender) (pg : NPage) (rest : Bytes) :
    (ap.appendStep pg rest).2.len
      = rest.len - min (PAGE_PAYLOAD_SIZE - in_page_pos ap.pos) rest.len := by
  simp only [PagedFileAppender.appendStep]
  rfl

theorem appendStep_spec (ap : PagedFileAppender) (pg : NPage) (rest : Bytes)
    (hin : in_page_pos ap.pos < PAGE_PAYLOAD_SIZE) (hr : 0 < rest.len) :
    ap.pos + min (PAGE_PAYLOAD_SIZE - in_page_pos ap.pos) rest.len
      ≤ (ap.appendStep pg rest).1.pos
    ∧ (ap.appendStep pg rest).2.len
        = rest.len - min (PAGE_PAYLOAD_SIZE - in_page_pos ap.pos) rest.len
    ∧ in_page_pos (ap.appendStep pg rest).1.pos < PAGE_PAYLOAD_SIZE := by
  refine ⟨?_, appendStep_snd_len ap pg rest, ?_⟩
  · rw [appendStep_fst_pos]
    split_ifs <;> omega
  · rw [appendStep_fst_pos]
    set space := min (PAGE_PAYLOAD_SIZE - in_page_pos ap.pos) rest.len with hspace
    have hsp : 0 < space ∧ in_page_pos ap.pos + space ≤ PAGE_PAYLOAD_SIZE := by
      constructor <;> omega
    split_ifs with hfull
    · simp only [in_page_pos, PAGE_SIZE, PAGE_PAYLOAD_SIZE] at *
      omega
    · simp only [in_page_pos, PAGE_SIZE, PAGE_PAYLOAD_SIZE] at *
      omega

theorem appendGo_pos_le :
    ∀ (fuel : Nat) (ap : PagedFileAppender) (rest : Bytes),
      in_page_pos ap.pos < PAGE_PAYLOAD_SIZE → rest.len ≤ fuel →
      ap.pos + rest.len ≤ (PagedFileAppender.appendGo ap rest fuel).pos := by
  intro fuel
  induction fuel with
  | zero =>
    intro ap rest hin hle
    simp only [PagedFileAppender.appendGo]
    omega
  | succ fuel ih =>
    intro ap rest hin hle
    simp only [PagedFileAppender.appendGo]
    by_cases h0 : rest.len = 0
    · rw [if_pos h0]; omega
    · rw [if_neg h0]
      have hr : 0 < rest.len := by omega
      have hmin1 := min_le_left (PAGE_PAYLOAD_SIZE - in_page_pos ap.pos) rest.len
      have hmin2 := min_le_right (PAGE_PAYLOAD_SIZE - in_page_pos ap.pos) rest.len
      have hminpos : 0 < min (PAGE_PAYLOAD_SIZE - in_page_pos ap.pos) rest.len :=
        lt_min (by omega) hr
      by_cases hp : ap.page = none
      · rw [if_pos hp]
        show ap.pos + rest.len ≤
          ((({ ap with page := some (NPage.new ap.lep) } :
              PagedFileAppender).appendStep (NPage.new ap.lep) rest).1.appendGo
            (({ ap with page := some (NPage.new ap.lep) } :
              PagedFileAppender).appendStep (NPage.new ap.lep) rest).2 fuel).pos
        have hspec : ap.pos + min (PAGE_PAYLOAD_SIZE - in_page_pos ap.pos) rest.len
            ≤ (({ ap with page := some (NPage.new ap.lep) } :
                PagedFileAppender).appendStep (NPage.new ap.lep) rest).1.pos
          ∧ (({ ap with page := some (NPage.new ap.lep) } :
                PagedFileAppender).appendStep (NPage.new ap.lep) rest).2.len
              = rest.len - min (PAGE_PAYLOAD_SIZE - in_page_pos ap.pos) rest.len
          ∧ in_page_pos (({ ap with page := some (NPage.new ap.lep) } :
                PagedFileAppender).appendStep (NPage.new ap.lep) rest).1.pos
              < PAGE_PAYLOAD_SIZE :=
          appendStep_spec { ap with page := some (NPage.new ap.lep) }
            (NPage.new ap.lep) rest hin hr
        have hrec := ih (({ ap with page := some (NPage.new ap.lep) } :
            PagedFileAppender).appendStep (NPage.new ap.lep) rest).1
          (({ ap with page := some (NPage.new ap.lep) } :
            PagedFileAppender).appendStep (NPage.new ap.lep) rest).2
          hspec.2.2 (by rw [hspec.2.1]; omega)
        omega
      · rw [if_neg hp]
        obtain ⟨pg, hpg⟩ := Option.ne_none_iff_exists'.mp hp
        rw [hpg]
        show ap.pos + rest.len ≤
          ((ap.appendStep pg rest).1.appendGo (ap.appendStep pg rest).2 fuel).pos
        have hspec := appendStep_spec ap pg rest hin hr
        have hrec := ih (ap.appendStep pg rest).1 (ap.appendStep pg rest).2
          hspec.2.2 (by rw [hspec.2.1]; omega)
        omega


theorem splice_zero_len (dst pos src : Nat) : spliceBytes dst pos src 0 = dst := by
  unfold spliceBytes
  have h1 : pow256 0 = 1 := rfl
  rw [Nat.add_zero, h1, Nat.mod_one, Nat.zero_mul, Nat.add_zero]
  exact Nat.mod_add_div' dst (pow256 pos)

theorem splice_mod_src (dst pos src n : Nat) :
    spliceBytes dst pos (src % pow256 n) n = spliceBytes dst pos src n := by
  unfold spliceBytes
  rw [Nat.mod_mod_of_dvd _ dvd_rfl]

theorem OPage.write_take (p : OPage) (pos : Nat) (s : Bytes) :
    p.write pos (s.take s.len) = p.write pos s := by
  unfold OPage.write Bytes.take
  simp only [Nat.min_self]
  rw [splice_mod_src]

theorem OPage.write_zero_len (p : OPage) (pos : Nat) (s : Bytes)
    (h : s.len = 0) : p.write pos s = p := by
  unfold OPage.write
  rw [h, splice_zero_len]

theorem byteAt_mod_pow (b pos j : Nat) (h : j < pos) :
    byteAt (b % pow256 pos) j = byteAt b j := by
  unfold byteAt
  simp only [pow256_eq]
  have hsplit : (256 : Nat) ^ pos = 256 ^ j * 256 ^ (pos - j) := by
    rw [← pow_add]
    congr 1
    omega
  rw [hsplit, Nat.mod_mul_right_div_self]
  have hdvd : (256 : Nat) ∣ 256 ^ (pos - j) :=
    dvd_pow_self 256 (by omega)
  rw [Nat.mod_mod_of_dvd _ hdvd]

theorem byteAt_splice_below (dst pos src n j : Nat) (h : j < pos) :
    byteAt (spliceBytes dst pos src n) j = byteAt dst j := by
  rw [← byteAt_mod_pow (spliceBytes dst pos src n) pos j h,
      splice_keeps_low, byteAt_mod_pow dst pos j h]

theorem byteAt_extract_head (b pos n : Nat) (h : 0 < n) :
    byteAt b pos = extractBytes b pos n % 256 := by
  unfold byteAt extractBytes
  have hdvd : (256 : Nat) ∣ pow256 n := by
    rw [pow256_eq]
    exact dvd_pow_self 256 (by omega)
  rw [Nat.mod_mod_of_dvd _ hdvd]

theorem byteAt_splice_head (dst pos src n : Nat) (h : 0 < n) :
    byteAt (spliceBytes dst pos src n) pos = src % 256 := by
  rw [byteAt_extract_head _ _ n h, extract_splice_self]
  have hdvd : (256 : Nat) ∣ pow256 n := by
    rw [pow256_eq]
    exact dvd_pow_self 256 (by omega)
  rw [Nat.mod_mod_of_dvd _ hdvd]

theorem appendSliceGo_nil (df : DataFile) (pos : Nat) (rest : Bytes)
    (fuel : Nat) (h : rest.len = 0) :
    DataFile.appendSliceGo df pos rest fuel = df := by
  cases fuel with
  | zero => rfl
  | succ fuel =>
    rw [DataFile.appendSliceGo, if_pos h]

theorem append_slice_single_chunk (df : DataFile) (s : Bytes)
    (h : in_page_pos df.append_pos + s.len ≤ PAYLOAD_MAX) :
    df.append_slice s =
      ⟨df.flushed, df.page.write (in_page_pos df.append_pos) s,
       df.append_pos + s.len⟩ := by
  unfold DataFile.append_slice
  by_cases hs : s.len = 0
  · rw [DataFile.appendSliceGo, if_pos hs, OPage.write_zero_len _ _ _ hs]
  · have hpos : ¬ in_page_pos df.append_pos = PAYLOAD_MAX := by omega
    have hmin : min s.len (PAYLOAD_MAX - in_page_pos df.append_pos) = s.len := by
      omega
    rw [DataFile.appendSliceGo, if_neg hs, if_neg hpos, hmin]
    rw [appendSliceGo_nil _ _ _ _ (by simp [Bytes.drop] : (s.drop s.len).len = 0)]
    rw [OPage.write_take]

theorem ofList_single_val (x : Nat) : (Bytes.ofList [x]).val = x % 256 := by
  show x % 256 + 0 % pow256 0 * 256 = x % 256
  norm_num

theorem to_u8_mod (t : DataType) : t.to_u8 % 256 = t.to_u8 := by
  cases t <;> rfl

theorem dataFile_append_readback (df : DataFile) (e : DataEntry)
    (hfresh : ¬(df.page.offset = 0 ∧ df.append_pos = 0))
    (hslot : df.flushed.length = page_number df.append_pos)
    (hfit : in_page_pos df.append_pos + 4 + e.content.len ≤ PAYLOAD_MAX) :
    ∃ df2 pg, df.append e = some (df2, df.append_pos)
      ∧ df2.flush.read_page (this_page df.append_pos) = some pg
      ∧ byteAt pg.payload (in_page_pos df.append_pos) = e.data_type.to_u8 := by
  have hq : in_page_pos df.append_pos + 4 + e.content.len ≤ 4090 := by
    simpa [PAYLOAD_MAX, PAGE_PAYLOAD_SIZE, PAGE_SIZE] using hfit
  have h24 : e.content.len < 2 ^ 24 := by omega
  have hip : ∀ k, in_page_pos df.append_pos + k < PAGE_SIZE →
      in_page_pos (df.append_pos + k) = in_page_pos df.append_pos + k := by
    intro k hk
    simp only [in_page_pos, PAGE_SIZE] at *
    omega
  have hs1len : (Bytes.ofList [e.data_type.to_u8]).len = 1 := rfl
  have hs2len : (serialize24 e.content.len).len = 3 := rfl
  -- the three slice writes, each a single in-page chunk
  have hstep1 := append_slice_single_chunk df (Bytes.ofList [e.data_type.to_u8])
    (by rw [hs1len]; omega)
  set df1 : DataFile :=
    ⟨df.flushed, df.page.write (in_page_pos df.append_pos)
        (Bytes.ofList [e.data_type.to_u8]), df.append_pos + 1⟩ with hdf1
  rw [hs1len] at hstep1
  have hip1 : in_page_pos df1.append_pos = in_page_pos df.append_pos + 1 := by
    show in_page_pos (df.append_pos + 1) = _
    exact hip 1 (by simp only [PAGE_SIZE]; omega)
  have hstep2 := append_slice_single_chunk df1 (serialize24 e.content.len)
    (by rw [hip1, hs2len]; omega)
  rw [hs2len, hip1] at hstep2
  set df2 : DataFile :=
    ⟨df.flushed, (df.page.write (in_page_pos df.append_pos)
          (Bytes.ofList [e.data_type.to_u8])).write
        (in_page_pos df.append_pos + 1) (serialize24 e.content.len),
     df.append_pos + 1 + 3⟩ with hdf2
  have hip2 : in_page_pos df2.append_pos = in_page_pos df.append_pos + 4 := by
    show in_page_pos (df.append_pos + 1 + 3) = _
    rw [Nat.add_assoc]
    exact hip 4 (by simp only [PAGE_SIZE]; omega)
  have hstep3 := append_slice_single_chunk df2 e.content
    (by rw [hip2]; omega)
  rw [hip2] at hstep3
  set df3 : DataFile :=
    ⟨df.flushed, ((df.page.write (in_page_pos df.append_pos)
            (Bytes.ofList [e.data_type.to_u8])).write
          (in_page_pos df.append_pos + 1) (serialize24 e.content.len)).write
        (in_page_pos df.append_pos + 4) e.content,
     df.append_pos + 1 + 3 + e.content.len⟩ with hdf3
  have happend : df.append e = some (df3, df.append_pos) := by
    unfold DataFile.append
    simp only [if_neg hfresh, if_pos h24]
    rw [hstep1, hstep2, hstep3]
  have hip3 : in_page_pos df3.append_pos
      = in_page_pos df.append_pos + 4 + e.content.len := by
    show in_page_pos (df.append_pos + 1 + 3 + e.content.len) = _
    have harg : df.append_pos + 1 + 3 + e.content.len
        = df.append_pos + (4 + e.content.len) := by omega
    rw [harg, hip (4 + e.content.len) (by simp only [PAGE_SIZE]; omega)]
    omega
  have hflush : df3.flush = { df3 with flushed := df.flushed ++ [df3.page] } := by
    unfold DataFile.flush
    rw [if_pos (by rw [hip3]; omega)]
  have hdiv : this_page df.append_pos / PAGE_SIZE = page_number df.append_pos := by
    unfold this_page page_number
    exact Nat.mul_div_cancel _ (by norm_num [PAGE_SIZE])
  have hread : df3.flush.read_page (this_page df.append_pos) = some df3.page := by
    rw [hflush]
    unfold DataFile.read_page
    show (df.flushed ++ [df3.page]).get? (this_page df.append_pos / PAGE_SIZE) = _
    rw [hdiv, ← hslot]
    exact List.get?_concat_length _ _
  refine ⟨df3, df3.page, happend, hread, ?_⟩
  show byteAt (OPage.write _ _ _).payload _ = _
  unfold OPage.write
  rw [byteAt_splice_below _ _ _ _ _ (by omega)]
  rw [byteAt_splice_below _ _ _ _ _ (by omega)]
  rw [hs1len, byteAt_splice_head _ _ _ _ (by omega), ofList_single_val,
      Nat.mod_mod_of_dvd _ dvd_rfl, to_u8_mod]

/-- C3 (amended): `PagedFileAppender::append` returns the appender's final
position, one past the written slice (at least the starting position plus
the slice length), not the start.  `DataFile::append` returns its pre-call
`append_pos` as the claimed start, and when the entry begins strictly inside
the current page and its whole five-byte-plus-content envelope fits in the
page's payload (with the backing file holding exactly the pages before the
current one), a read after `flush` at the returned position does yield the
entry's first byte, the data-type byte. -/
theorem append_return_positions :
    (∀ (ap : PagedFileAppender) (buf : Bytes),
        in_page_pos ap.pos < PAGE_PAYLOAD_SIZE → 0 < buf.len →
        (ap.append buf).2 = (ap.append buf).1.pos
        ∧ ap.pos + buf.len ≤ (ap.append buf).2)
    ∧ (∀ (df : DataFile) (e : DataEntry),
        ¬(df.page.offset = 0 ∧ df.append_pos = 0) → e.content.len < 2 ^ 24 →
        ∃ df2, df.append e = some (df2, df.append_pos))
    ∧ (∀ (df : DataFile) (e : DataEntry),
        ¬(df.page.offset = 0 ∧ df.append_pos = 0) →
        df.flushed.length = page_number df.append_pos →
        in_page_pos df.append_pos + 4 + e.content.len ≤ PAYLOAD_MAX →
        ∃ df2 pg, df.append e = some (df2, df.append_pos)
          ∧ df2.flush.read_page (this_page df.append_pos) = some pg
          ∧ byteAt pg.payload (in_page_pos df.append_pos)
              = e.data_type.to_u8) := by
  refine ⟨?_, ?_, ?_⟩
  · intro ap buf hin hlen
    refine ⟨rfl, ?_⟩
    exact appendGo_pos_le (buf.len + 1) ap buf hin (by omega)
  · intro df e hfresh hlen
    unfold DataFile.append
    rw [if_neg hfresh, if_pos hlen]
    exact ⟨_, rfl⟩
  · intro df e hfresh hslot hfit
    exact dataFile_append_readback df e hfresh hslot hfit

def c3ap0 : PagedFileAppender := ⟨[], 0, none, invalidPRef⟩

/-- First entry of the read-back counterexample: its 4084-byte content makes
the whole file (magic, type byte, three length bytes, content) exactly fill
the first page's 4090-byte payload, so the next entry starts at the
page-payload boundary. -/
def c3dfA : DataEntry := ⟨.TransactionOrAppData, Bytes.replicate 4084 2⟩

/-- Second entry of the read-back counterexample. -/
def c3dfB : DataEntry := ⟨.TransactionOrAppData, Bytes.ofList [9]⟩

/-- Fresh data file after appending `c3dfA` then `c3dfB`, paired with the
position returned for `c3dfB`. -/
def c3res : Option (DataFile × Nat) :=
  (DataFile.new.append c3dfA).bind fun r => r.1.append c3dfB

set_option maxRecDepth 20000 in
/-- C3 counterexample, two parts.  `PagedFileAppender`: appending `[42]` to
a fresh appender stores the byte at position 0 yet returns 1, so the claimed
start is not returned.  `DataFile` read-back at the boundary: after `c3dfA`
exactly fills the first page payload, appending `c3dfB` returns 4090, but a
flush-then-read at position 4090 finds byte 0 there, while `c3dfB`'s first
byte (its type byte 1) actually sits at position 4096, the start of the next
page — so the returned position is not where the entry's first byte was
written. -/
theorem append_returns_end_counterexample :
    ((c3ap0.append (Bytes.ofList [42])).2 = 1
      ∧ ((c3ap0.append (Bytes.ofList [42])).1.read_page 0).map
          (fun pg => byteAt pg.payload 0) = some 42)
    ∧ (c3res.map Prod.snd = some 4090
      ∧ c3res.map (fun r =>
            ((r.1.flush).read_page (this_page 4090)).map
              (fun pg => byteAt pg.payload (in_page_pos 4090)))
          = some (some 0)
      ∧ c3res.map (fun r =>
            ((r.1.flush).read_page 4096).map
              (fun pg => byteAt pg.payload 0))
          = some (some 1)
      ∧ c3dfB.data_type.to_u8 = 1) := by
  decide

/-- Witness state for the read-back conjunct: one already-flushed page and an
entry starting two bytes into the second page. -/
def c3wdf : DataFile := ⟨[⟨0, 77⟩], OPage.new PAGE_SIZE, PAGE_SIZE + 2⟩

/-- Witness entry for the read-back conjunct. -/
def c3we : DataEntry := ⟨.HeaderOrBlock, Bytes.ofList [7]⟩

set_option maxRecDepth 8000 in
theorem append_return_positions_witness :
    (in_page_pos c3ap0.pos < PAGE_PAYLOAD_SIZE ∧ 0 < (Bytes.ofList [42]).len
      ∧ ((c3ap0.append (Bytes.ofList [42])).2
            = (c3ap0.append (Bytes.ofList [42])).1.pos
          ∧ c3ap0.pos + (Bytes.ofList [42]).len
              ≤ (c3ap0.append (Bytes.ofList [42])).2))
    ∧ (∃ df2, DataFile.append ⟨[], OPage.new PAGE_SIZE, PAGE_SIZE + 2⟩
          ⟨.TransactionOrAppData, Bytes.ofList [7]⟩
        = some (df2, PAGE_SIZE + 2))
    ∧ (¬(c3wdf.page.offset = 0 ∧ c3wdf.append_pos = 0)
      ∧ c3wdf.flushed.length = page_number c3wdf.append_pos
      ∧ in_page_pos c3wdf.append_pos + 4 + c3we.content.len ≤ PAYLOAD_MAX
      ∧ ∃ df2 pg, c3wdf.append c3we = some (df2, c3wdf.append_pos)
          ∧ df2.flush.read_page (this_page c3wdf.append_pos) = some pg
          ∧ byteAt pg.payload (in_page_pos c3wdf.append_pos)
              = c3we.data_type.to_u8) :=
  ⟨⟨by decide, by decide,
    append_return_positions.1 c3ap0 (Bytes.ofList [42]) (by decide) (by decide)⟩,
   append_return_positions.2.1 ⟨[], OPage.new PAGE_SIZE, PAGE_SIZE + 2⟩
     ⟨.TransactionOrAppData, Bytes.ofList [7]⟩ (by decide) (by decide),
   by decide, by decide, by decide,
   append_return_positions.2.2 c3wdf c3we (by decide) (by decide) (by decide)⟩

/-! ## C4: bucket selection -/

theorem mask_shift_eq (k : Nat) (hk : k ≤ 32) :
    (2 ^ 32 - 1) >>> (32 - k) = 2 ^ k - 1 := by
  rw [Nat.shiftRight_eq_div_pow]
  have hsplit : (2 : Nat) ^ 32 = 2 ^ (32 - k) * 2 ^ k := by
    rw [← pow_add]
    congr 1
    omega
  rw [hsplit]
  have ha : 0 < (2 : Nat) ^ (32 - k) := Nat.pos_pow_of_pos _ (by norm_num)
  have hb : 0 < (2 : Nat) ^ k := Nat.pos_pow_of_pos _ (by norm_num)
  have hprod : (2 : Nat) ^ (32 - k) * 2 ^ k
      = 2 ^ (32 - k) * (2 ^ k - 1) + 2 ^ (32 - k) := by
    generalize hB : (2 : Nat) ^ k = B at hb ⊢
    cases B with
    | zero => omega
    | succ b => simp [Nat.mul_succ]
  rw [hprod]
  have : (2 : Nat) ^ (32 - k) * (2 ^ k - 1) + 2 ^ (32 - k) - 1
      = (2 ^ (32 - k) - 1) + 2 ^ (32 - k) * (2 ^ k - 1) := by omega
  rw [this, Nat.add_mul_div_left _ _ ha, Nat.div_eq_of_lt (by omega)]
  omega

theorem mask_and_eq_mod (h k : Nat) (hk : k ≤ 32) :
    h &&& ((2 ^ 32 - 1) >>> (32 - k)) = h % 2 ^ k := by
  rw [mask_shift_eq k hk]
  exact Nat.and_pow_two_sub_one_eq_mod h k

/-- C4: for linear-hash parameters with `1 ≤ log_mod ≤ 30` and
`step < 2 ^ log_mod`, the bucket selected by `MemTable::get` for a key is
`h mod 2 ^ log_mod`, except that when that value is below `step` it is
`h mod 2 ^ (log_mod + 1)`, where `h` is SipHash-2-4 of the key under
`(sip0, sip1)` truncated to 32 bits. -/
theorem bucket_selection_linear_hash (m : MemTable) (key : List Nat)
    (h1 : 1 ≤ m.log_mod) (h2 : m.log_mod ≤ 30) (_h3 : m.step < 2 ^ m.log_mod) :
    m.bucket_number key =
      (if m.hash key % 2 ^ m.log_mod < m.step then
        m.hash key % 2 ^ (m.log_mod + 1)
       else m.hash key % 2 ^ m.log_mod)
    ∧ m.hash key = sipHash24 m.sip0 m.sip1 key % 2 ^ 32 := by
  refine ⟨?_, rfl⟩
  unfold MemTable.bucket_number
  rw [show 32 - m.log_mod - 1 = 32 - (m.log_mod + 1) by omega]
  rw [mask_and_eq_mod _ _ (show m.log_mod ≤ 32 by omega),
      mask_and_eq_mod _ _ (show m.log_mod + 1 ≤ 32 by omega)]

/-- Concrete parameters for the C4 witness. -/
def c4m : MemTable := ⟨1, 2, 7, 9, []⟩

theorem bucket_selection_linear_hash_witness :
    (1 ≤ c4m.log_mod ∧ c4m.log_mod ≤ 30 ∧ c4m.step < 2 ^ c4m.log_mod)
    ∧ (c4m.bucket_number [1, 2, 3] =
        (if c4m.hash [1, 2, 3] % 2 ^ c4m.log_mod < c4m.step then
          c4m.hash [1, 2, 3] % 2 ^ (c4m.log_mod + 1)
         else c4m.hash [1, 2, 3] % 2 ^ c4m.log_mod)
      ∧ c4m.hash [1, 2, 3] = sipHash24 c4m.sip0 c4m.sip1 [1, 2, 3] % 2 ^ 32) :=
  ⟨by decide,
   bucket_selection_linear_hash c4m [1, 2, 3] (by decide) (by decide) (by decide)⟩

/-! ## C5: the oversize guard in `put` -/

/-- C5 (amended): in a debug build, `put` with a key longer than 255 bytes
or data of at least `2 ^ 23` bytes fails before storing anything — but with
the `ForwardReference` error, not `OutOfBounds`. -/
theorem put_oversize_forward_reference (m : EngineMem) (key data : Bytes)
    (referred : List Nat) (h : 255 < key.len ∨ 2 ^ 23 ≤ data.len) :
    put m key data referred = .error .ForwardReference := by
  unfold put
  rw [if_pos h]

theorem put_oversize_forward_reference_witness :
    (255 < (Bytes.replicate 256 0).len ∨ 2 ^ 23 ≤ Bytes.nil.len)
    ∧ put ⟨[], 0, []⟩ (Bytes.replicate 256 0) Bytes.nil [] =
        .error .ForwardReference :=
  ⟨by decide,
   put_oversize_forward_reference ⟨[], 0, []⟩ (Bytes.replicate 256 0)
     Bytes.nil [] (by decide)⟩

/-- C5 counterexample: the oversize error is `ForwardReference`, not the
`OutOfBounds` the claim names. -/
theorem put_oversize_error_counterexample :
    put ⟨[], 0, []⟩ (Bytes.replicate 256 0) Bytes.nil [] =
      .error .ForwardReference
    ∧ put ⟨[], 0, []⟩ (Bytes.replicate 256 0) Bytes.nil [] ≠
        .error .OutOfBounds := by
  constructor
  · exact put_oversize_forward_reference _ _ _ _ (by decide)
  · intro hcontra
    rw [put_oversize_forward_reference _ _ _ _ (by decide)] at hcontra
    exact HammersbaldError.noConfusion (Except.error.inj hcontra)

/-! ## C7: read visibility -/

/-- C7: `AsyncFile::read_page` consults only the inner file — a page number
past the inner file yields `None` no matter what sits in the queue — while
`PagedFileAppender::read_page` returns the in-progress page when the
request names the page of the current append position. -/
theorem read_visibility :
    (∀ (a : AsyncFile) (p : Nat), a.read_page p = pagesRead a.file p)
    ∧ (∀ (a : AsyncFile) (p : Nat), a.file.length ≤ page_number p →
        a.read_page p = none)
    ∧ (∀ (ap : PagedFileAppender) (pg : NPage) (p : Nat),
        ap.page = some pg → this_page ap.pos = p → ap.read_page p = some pg) := by
  refine ⟨fun a p => rfl, fun a p h => ?_, fun ap pg p hpg hp => ?_⟩
  · unfold AsyncFile.read_page pagesRead
    exact List.get?_eq_none.mpr h
  · simp only [PagedFileAppender.read_page, hpg]
    rw [if_pos hp]

theorem read_visibility_witness :
    ((⟨[⟨0, 5⟩], []⟩ : AsyncFile).file.length ≤ page_number 0
      ∧ (⟨[⟨0, 5⟩], []⟩ : AsyncFile).read_page 0 = none)
    ∧ ((⟨[], 10, some ⟨0, 6⟩, 0⟩ : PagedFileAppender).page = some ⟨0, 6⟩
      ∧ this_page (⟨[], 10, some ⟨0, 6⟩, 0⟩ : PagedFileAppender).pos = 0
      ∧ (⟨[], 10, some ⟨0, 6⟩, 0⟩ : PagedFileAppender).read_page 0 = some ⟨0, 6⟩) :=
  ⟨⟨by decide, read_visibility.2.1 ⟨[⟨0, 5⟩], []⟩ 0 (by decide)⟩,
   ⟨rfl, by decide, read_visibility.2.2 ⟨[], 10, some ⟨0, 6⟩, 0⟩ ⟨0, 6⟩ 0 rfl (by decide)⟩⟩

/-! ## C8: `SingleFile::read_page` -/

/-- C8: for a position inside the chunk's address range, `read_page` never
errors (the model has no I/O failures) and returns `None` exactly when the
in-chunk offset is at or past the tracked length; outside the chunk range
it returns the `Corrupted` error. -/
theorem single_file_read_page_total (s : SingleFile) (p : Nat) :
    (s.base ≤ p → p < s.base + s.chunk_size →
      ∃ r s2, s.read_page p = .ok (r, s2) ∧ (r = none ↔ s.len ≤ p - s.base))
    ∧ ((p < s.base ∨ s.base + s.chunk_size ≤ p) →
      s.read_page p = .error (.Corrupted "read from wrong file")) := by
  constructor
  · intro hb hc
    unfold SingleFile.read_page
    rw [if_neg (by omega)]
    by_cases hl : s.len ≤ p - s.base
    · rw [if_pos hl]
      exact ⟨none, s, rfl, by simp [hl]⟩
    · rw [if_neg hl]
      refine ⟨some _, _, rfl, by simp [hl]⟩
  · intro h
    unfold SingleFile.read_page
    rw [if_pos h]

/-- Concrete single-file state for the C8 witness: one page of content. -/
def c8s : SingleFile := ⟨Bytes.replicate PAGE_SIZE 3, 0, 0, PAGE_SIZE, 2 ^ 47⟩

theorem single_file_read_page_total_witness :
    (c8s.base ≤ 0 ∧ (0 : Nat) < c8s.base + c8s.chunk_size
      ∧ ∃ r s2, c8s.read_page 0 = .ok (r, s2) ∧ (r = none ↔ c8s.len ≤ 0 - c8s.base))
    ∧ ((2 ^ 47 < c8s.base ∨ c8s.base + c8s.chunk_size ≤ 2 ^ 47)
      ∧ c8s.read_page (2 ^ 47) = .error (.Corrupted "read from wrong file")) :=
  ⟨⟨by decide, by decide,
      (single_file_read_page_total c8s 0).1 (by decide) (by decide)⟩,
   ⟨by decide,
      (single_file_read_page_total c8s (2 ^ 47)).2 (by decide)⟩⟩

/-! ## C9: `SingleFile::append_page` -/

/-- C9 (amended): `append_page` adds exactly `PAGE_SIZE` to the tracked
length and writes the page's buffer at the OS cursor: the page's bytes land
at offset `cursor`, bytes below the cursor are unchanged, and only when the
cursor sits at the end of the file (as in pure append-only use) is the page
placed at the prior end, extending the file by `PAGE_SIZE`. -/
theorem append_page_len_and_placement (s : SingleFile) (pg : NPage) :
    (s.append_page pg).len = s.len + PAGE_SIZE
    ∧ extractBytes (s.append_page pg).bytes.val s.cursor PAGE_SIZE
        = pg.payload % pow256 PAGE_SIZE
    ∧ (s.append_page pg).bytes.val % pow256 s.cursor
        = s.bytes.val % pow256 s.cursor
    ∧ (s.cursor = s.bytes.len →
        (s.append_page pg).bytes.len = s.bytes.len + PAGE_SIZE) := by
  refine ⟨rfl, extract_splice_self _ _ _ _, splice_keeps_low _ _ _ _, ?_⟩
  intro hcur
  show max s.bytes.len (s.cursor + PAGE_SIZE) = s.bytes.len + PAGE_SIZE
  rw [hcur]
  omega

/-- C9 counterexample state: a two-page file (bytes 7 then bytes 8) whose
cursor was moved back to 4096 by a `read_page` of page 0. -/
def c9s0 : SingleFile :=
  ⟨(Bytes.replicate PAGE_SIZE 7).append (Bytes.replicate PAGE_SIZE 8),
   2 * PAGE_SIZE, 0, 2 * PAGE_SIZE, 2 ^ 47⟩

set_option maxRecDepth 8000 in
/-- C9 counterexample: after `read_page 0` leaves the cursor at 4096,
`append_page` reports length 12288 yet the file still holds 8192 bytes, and
byte 4096 changed from 8 to 9 — the page was written at the cursor,
overwriting page 1, not appended at the prior end, and a previously written
page changed. -/
theorem append_page_cursor_counterexample :
    ((c9s0.read_page 0).toOption.map fun rs =>
      ((rs.2.append_page ⟨0, (Bytes.replicate PAGE_SIZE 9).val⟩).len,
       (rs.2.append_page ⟨0, (Bytes.replicate PAGE_SIZE 9).val⟩).bytes.len,
       byteAt (rs.2.append_page ⟨0, (Bytes.replicate PAGE_SIZE 9).val⟩).bytes.val PAGE_SIZE))
    = some (3 * PAGE_SIZE, 2 * PAGE_SIZE, 9)
    ∧ byteAt c9s0.bytes.val PAGE_SIZE = 8 := by
  decide

theorem append_page_len_and_placement_witness :
    ((c9s0.append_page ⟨0, 1⟩).len = c9s0.len + PAGE_SIZE
      ∧ extractBytes (c9s0.append_page ⟨0, 1⟩).bytes.val c9s0.cursor PAGE_SIZE
          = (1 : Nat) % pow256 PAGE_SIZE
      ∧ (c9s0.append_page ⟨0, 1⟩).bytes.val % pow256 c9s0.cursor
          = c9s0.bytes.val % pow256 c9s0.cursor
      ∧ (c9s0.cursor = c9s0.bytes.len →
          (c9s0.append_page ⟨0, 1⟩).bytes.len = c9s0.bytes.len + PAGE_SIZE))
    ∧ c9s0.cursor = c9s0.bytes.len :=
  ⟨append_page_len_and_placement c9s0 ⟨0, 1⟩, by decide⟩

/-! ## C10: the page iterator -/

theorem yieldsAux_spec (read : Nat → Except HammersbaldError (Option NPage)) :
    ∀ (fuel pn : Nat),
      (PagedFileIterator.yieldsAux read fuel pn).length
          ≤ 2 ^ 35 / PAGE_SIZE + 1 - pn
      ∧ ∀ k pg, (PagedFileIterator.yieldsAux read fuel pn).get? k = some pg →
          pn + k ≤ 2 ^ 35 / PAGE_SIZE
          ∧ read ((pn + k) * PAGE_SIZE) = .ok (some pg) := by
  intro fuel
  induction fuel with
  | zero =>
    intro pn
    simp [PagedFileIterator.yieldsAux]
  | succ fuel ih =>
    intro pn
    simp only [PagedFileIterator.yieldsAux]
    by_cases hpn : pn ≤ 2 ^ 35 / PAGE_SIZE
    · rw [if_pos hpn]
      cases hread : read (pn * PAGE_SIZE) with
      | error e => simp
      | ok o =>
        cases o with
        | none => simp
        | some pg0 =>
          constructor
          · have := (ih (pn + 1)).1
            simp only [List.length_cons]
            omega
          · intro k pg hk
            cases k with
            | zero =>
              simp only [List.get?] at hk
              obtain rfl : pg0 = pg := Option.some.inj hk
              exact ⟨by omega, by rw [Nat.add_zero, hread]⟩
            | succ k =>
              simp only [List.get?] at hk
              have := (ih (pn + 1)).2 k pg hk
              refine ⟨by omega, ?_⟩
              rw [show pn + (k + 1) = pn + 1 + k by omega]
              exact this.2
    · rw [if_neg hpn]
      simp

/-- C10: the page iterator started at any position yields, without ever
exceeding page number `2 ^ 35 / PAGE_SIZE`, at most that many pages: the
`k`-th yield came from `read_page` at page number `page_number pref + k`
(consecutive pages from the starting position's page), and the yield list
is finite for every backing file. -/
theorem page_iterator_consecutive_bounded
    (read : Nat → Except HammersbaldError (Option NPage)) (pref : Nat) :
    (PagedFileIterator.yieldsFrom read pref).length
        ≤ 2 ^ 35 / PAGE_SIZE + 1 - page_number pref
    ∧ ∀ k pg, (PagedFileIterator.yieldsFrom read pref).get? k = some pg →
        page_number pref + k ≤ 2 ^ 35 / PAGE_SIZE
        ∧ read ((page_number pref + k) * PAGE_SIZE) = .ok (some pg) :=
  yieldsAux_spec read _ (page_number pref)

/-- A one-page backing file for the C10 witness. -/
def c10read (p : Nat) : Except HammersbaldError (Option NPage) :=
  if p = 0 then .ok (some ⟨0, 5⟩) else .ok none

theorem page_iterator_consecutive_bounded_witness :
    (PagedFileIterator.yieldsFrom c10read 0).get? 0 = some ⟨0, 5⟩
    ∧ (page_number 0 + 0 ≤ 2 ^ 35 / PAGE_SIZE
        ∧ c10read ((page_number 0 + 0) * PAGE_SIZE) = .ok (some ⟨0, 5⟩)) :=
  ⟨by decide,
   (page_iterator_consecutive_bounded c10read 0).2 0 ⟨0, 5⟩ (by decide)⟩

end Hammersbald
